import Mathlib

/-!
Verification of the core text-processing pipeline of the AI PDF Summarizer
application (`app.py`): text chunking with overlap, the map/reduce
summarization pipeline, PDF text extraction, and document export.

Python strings are modelled as `String` (or `List Char` where slicing
matters), the generative-model client as a function
`String → Except String (Option String)` (an exception with its message, or
a response whose optional `text` field may be absent), and per-page PDF
extraction as `Except String (Option String)` (the extraction call may
raise, return no text, or return a possibly empty string).
-/

namespace PdfSummarizer

/-! ## Chunker (`chunk_text` in `app.py`)

The Python loop is
```
start = 0
while start < len(text):
    end = min(start + chunk_size, len(text))
    chunks.append(text[start:end])
    start = end - overlap if end - overlap > start else end
```
Its cursor update is `nextStart`; the loop is modelled with a fuel
parameter (`text.length + 1` suffices, since for `0 < size` the cursor
strictly advances each iteration, as `chunkAux_fuel_stable` shows).
-/

/-- The cursor update of `chunk_text`: `end - overlap` when that moves the
cursor strictly forward, otherwise `end`. -/
def nextStart (len size overlap start : Nat) : Nat :=
  let e := min (start + size) len
  if e - overlap > start then e - overlap else e

/-- The loop body of `chunk_text`, with explicit fuel. -/
def chunkAux (text : List Char) (size overlap start : Nat) : Nat → List (List Char)
  | 0 => []
  | Nat.succ fuel =>
    if start < text.length then
      (text.drop start).take (min (start + size) text.length - start) ::
        chunkAux text size overlap (nextStart text.length size overlap start) fuel
    else []

/-- `chunk_text(text, chunk_size=1200, overlap=150)` from `app.py`. -/
def chunk_text (text : List Char) (size : Nat := 1200) (overlap : Nat := 150) :
    List (List Char) :=
  chunkAux text size overlap 0 (text.length + 1)

/-- The spans `(start, end)` of the successive chunks, mirroring `chunkAux`. -/
def chunkSpans (len size overlap start : Nat) : Nat → List (Nat × Nat)
  | 0 => []
  | Nat.succ fuel =>
    if start < len then
      (start, min (start + size) len) ::
        chunkSpans len size overlap (nextStart len size overlap start) fuel
    else []

/-- The successive values of the cursor `start`, including the final value at
which the loop exits. -/
def chunkCursors (len size overlap start : Nat) : Nat → List Nat
  | 0 => [start]
  | Nat.succ fuel =>
    if start < len then
      start :: chunkCursors len size overlap (nextStart len size overlap start) fuel
    else [start]

theorem nextStart_lt (len size overlap start : Nat) (hsize : 0 < size)
    (hlt : start < len) : start < nextStart len size overlap start := by
  unfold nextStart
  dsimp only
  split <;> omega

theorem nextStart_le (len size overlap start : Nat) :
    nextStart len size overlap start ≤ min (start + size) len := by
  unfold nextStart
  dsimp only
  split <;> omega

theorem min_le_nextStart_add_size (len size overlap start : Nat) :
    min (nextStart len size overlap start + size) len ≥
      min (start + size) len := by
  unfold nextStart
  dsimp only
  split <;> omega

/-- The fuel bound models termination: once the fuel covers the remaining
text, adding more fuel does not change the result. -/
theorem chunkAux_fuel_stable (text : List Char) (size overlap : Nat)
    (hsize : 0 < size) :
    ∀ fuel start, text.length - start ≤ fuel →
      chunkAux text size overlap start (fuel + 1) =
        chunkAux text size overlap start fuel := by
  intro fuel
  induction fuel with
  | zero =>
    intro start h
    unfold chunkAux
    rw [if_neg (by omega)]
  | succ fuel ih =>
    intro start h
    by_cases hlt : start < text.length
    · conv_lhs => rw [chunkAux]
      conv_rhs => rw [chunkAux]
      rw [if_pos hlt, if_pos hlt]
      have hadv := nextStart_lt text.length size overlap start hsize hlt
      rw [ih (nextStart text.length size overlap start) (by omega)]
    · conv_lhs => rw [chunkAux]
      conv_rhs => rw [chunkAux]
      rw [if_neg hlt, if_neg hlt]

/-- `chunkAux` is `chunkSpans` followed by slicing the text at each span. -/
theorem chunkAux_eq_map_chunkSpans (text : List Char) (size overlap : Nat) :
    ∀ fuel start,
      chunkAux text size overlap start fuel =
        (chunkSpans text.length size overlap start fuel).map
          (fun p => (text.drop p.1).take (p.2 - p.1)) := by
  intro fuel
  induction fuel with
  | zero => intro start; rfl
  | succ fuel ih =>
    intro start
    rw [chunkAux, chunkSpans]
    by_cases hlt : start < text.length
    · rw [if_pos hlt, if_pos hlt, List.map_cons, ih]
    · rw [if_neg hlt, if_neg hlt, List.map_nil]

example : chunk_text "ABCDEFGHIJ".toList 4 1 =
    ["ABCD".toList, "DEFG".toList, "GHIJ".toList, "J".toList] := by decide

example : chunkCursors 10 4 1 0 11 = [0, 3, 6, 9, 10] := by decide

example : chunk_text "ABCDEFGHIJ".toList 5 5 =
    ["ABCDE".toList, "FGHIJ".toList] := by decide

/-- Every span emitted by the loop is non-degenerate, lies inside the text,
and has width at most `size`. -/
theorem chunkSpans_mem (len size overlap : Nat) (hsize : 0 < size) :
    ∀ fuel start p, p ∈ chunkSpans len size overlap start fuel →
      start ≤ p.1 ∧ p.1 < p.2 ∧ p.2 ≤ len ∧ p.2 - p.1 ≤ size := by
  intro fuel
  induction fuel with
  | zero => intro start p hp; simp [chunkSpans] at hp
  | succ fuel ih =>
    intro start p hp
    rw [chunkSpans] at hp
    by_cases hlt : start < len
    · rw [if_pos hlt] at hp
      rcases List.mem_cons.mp hp with h | h
      · subst h
        refine ⟨le_refl _, by dsimp only; omega, by dsimp only; omega,
          by dsimp only; omega⟩
      · have h1 := ih (nextStart len size overlap start) p h
        have h2 := nextStart_lt len size overlap start hsize hlt
        exact ⟨by omega, h1.2.1, h1.2.2.1, h1.2.2.2⟩
    · rw [if_neg hlt] at hp; simp at hp

/-- Every position of the remaining text is covered by some emitted span. -/
theorem chunkSpans_cover (len size overlap : Nat) (hsize : 0 < size) :
    ∀ fuel start i, len - start ≤ fuel → start ≤ i → i < len →
      ∃ p ∈ chunkSpans len size overlap start fuel, p.1 ≤ i ∧ i < p.2 := by
  intro fuel
  induction fuel with
  | zero => intro start i h h1 h2; omega
  | succ fuel ih =>
    intro start i h h1 h2
    have hlt : start < len := by omega
    rw [chunkSpans, if_pos hlt]
    by_cases hcase : i < min (start + size) len
    · exact ⟨(start, min (start + size) len), List.mem_cons_self _ _, h1, hcase⟩
    · have hns := nextStart_lt len size overlap start hsize hlt
      have hnsle := nextStart_le len size overlap start
      obtain ⟨p, hp, hpi⟩ :=
        ih (nextStart len size overlap start) i (by omega) (by omega) h2
      exact ⟨p, List.mem_cons_of_mem _ hp, hpi⟩

/-- Concatenation of the chunks with the overlapping prefixes removed: each
chunk is paired with its span, and the prefix of length
`previous end - start` is dropped before appending. -/
def joinChunksDrop : Nat → List ((Nat × Nat) × List Char) → List Char
  | _, [] => []
  | prevEnd, (p, c) :: rest => List.drop (prevEnd - p.1) c ++ joinChunksDrop p.2 rest

/-- The chunks produced from cursor `start`, with overlaps removed, rebuild
the text from position `prevEnd` on. -/
theorem joinChunksDrop_spans (text : List Char) (size overlap : Nat)
    (hsize : 0 < size) :
    ∀ fuel start prevEnd, text.length - start ≤ fuel → start ≤ prevEnd →
      prevEnd ≤ min (start + size) text.length →
      joinChunksDrop prevEnd
          ((chunkSpans text.length size overlap start fuel).zip
            (chunkAux text size overlap start fuel)) =
        text.drop prevEnd := by
  intro fuel
  induction fuel with
  | zero =>
    intro start prevEnd h h1 h2
    rw [chunkSpans, chunkAux]
    rw [List.zip_nil_left, joinChunksDrop]
    symm
    apply List.drop_eq_nil_of_le
    omega
  | succ fuel ih =>
    intro start prevEnd h h1 h2
    by_cases hlt : start < text.length
    · have hadv := nextStart_lt text.length size overlap start hsize hlt
      have hle := nextStart_le text.length size overlap start
      have hmin := min_le_nextStart_add_size text.length size overlap start
      rw [chunkSpans, chunkAux, if_pos hlt, if_pos hlt, List.zip_cons_cons,
        joinChunksDrop]
      rw [ih (nextStart text.length size overlap start)
        (min (start + size) text.length) (by omega) (by omega) (by omega)]
      rw [List.drop_take, List.drop_drop]
      have e1 : start + (prevEnd - start) = prevEnd := by omega
      have e2 : min (start + size) text.length - start - (prevEnd - start) =
          min (start + size) text.length - prevEnd := by omega
      rw [e1, e2]
      conv_rhs => rw [← List.take_append_drop
        (min (start + size) text.length - prevEnd) (text.drop prevEnd)]
      congr 1
      rw [List.drop_drop]
      congr 1
      omega
    · rw [chunkSpans, chunkAux, if_neg hlt, if_neg hlt]
      rw [List.zip_nil_left, joinChunksDrop]
      symm
      apply List.drop_eq_nil_of_le
      omega

/-- One step of the ceiling-division count. -/
theorem ceil_div_step (n size : Nat) (hsize : 0 < size) (hn : 0 < n) :
    (n - size + size - 1) / size + 1 = (n + size - 1) / size := by
  rcases le_or_lt n size with hc | hc
  · have h1 : n - size + size - 1 = size - 1 := by omega
    have h2 : n + size - 1 = (n - 1) + size := by omega
    rw [h1, h2, Nat.add_div_right _ hsize]
    rw [Nat.div_eq_of_lt (by omega), Nat.div_eq_of_lt (by omega)]
  · have h2 : n - size + size - 1 = (n - size - 1) + size := by omega
    have h3 : n + size - 1 = (n - 1 - size) + size + size := by omega
    rw [h2, h3, Nat.add_div_right _ hsize, Nat.add_div_right _ hsize,
      Nat.add_div_right _ hsize]
    have h4 : n - size - 1 = n - 1 - size := by omega
    rw [h4]

/-- When `overlap ≥ size`, the guard always takes the `else` branch and the
cursor jumps to the end of the current chunk. -/
theorem nextStart_of_overlap_ge (len size overlap start : Nat)
    (hov : size ≤ overlap) :
    nextStart len size overlap start = min (start + size) len := by
  unfold nextStart
  dsimp only
  split <;> omega

/-- With `overlap ≥ size`, the number of spans is the ceiling of the
remaining length divided by `size`. -/
theorem chunkSpans_length_of_overlap_ge (len size overlap : Nat)
    (hsize : 0 < size) (hov : size ≤ overlap) :
    ∀ fuel start, len - start ≤ fuel →
      (chunkSpans len size overlap start fuel).length =
        (len - start + size - 1) / size := by
  intro fuel
  induction fuel with
  | zero =>
    intro start h
    rw [chunkSpans]
    symm
    apply Nat.div_eq_of_lt
    omega
  | succ fuel ih =>
    intro start h
    by_cases hlt : start < len
    · have hnext := nextStart_of_overlap_ge len size overlap start hov
      have hadv := nextStart_lt len size overlap start hsize hlt
      rw [chunkSpans, if_pos hlt, List.length_cons,
        ih (nextStart len size overlap start) (by omega), hnext]
      have hrw : len - min (start + size) len = (len - start) - size := by omega
      rw [hrw]
      exact ceil_div_step (len - start) size hsize (by omega)
    · rw [chunkSpans, if_neg hlt]
      symm
      apply Nat.div_eq_of_lt
      omega

/-- The first emitted span starts at the current cursor. -/
theorem chunkSpans_head_fst (len size overlap : Nat) :
    ∀ fuel start p, (chunkSpans len size overlap start fuel).head? = some p →
      p.1 = start := by
  intro fuel start p hp
  cases fuel with
  | zero => simp [chunkSpans] at hp
  | succ fuel =>
    rw [chunkSpans] at hp
    by_cases hlt : start < len
    · rw [if_pos hlt, List.head?_cons, Option.some.injEq] at hp
      rw [← hp]
    · rw [if_neg hlt] at hp; simp at hp

/-- With `overlap ≥ size`, consecutive spans are adjacent: each next chunk
starts exactly where the previous one ended (non-overlapping movement). -/
theorem chunkSpans_chain_of_overlap_ge (len size overlap : Nat)
    (hov : size ≤ overlap) :
    ∀ fuel start,
      List.Chain' (fun p q => p.2 = q.1) (chunkSpans len size overlap start fuel) := by
  intro fuel
  induction fuel with
  | zero => intro start; rw [chunkSpans]; exact List.chain'_nil
  | succ fuel ih =>
    intro start
    by_cases hlt : start < len
    · rw [chunkSpans, if_pos hlt]
      refine List.chain'_cons'.mpr ⟨?_, ih _⟩
      intro q hq
      have hfst := chunkSpans_head_fst len size overlap fuel
        (nextStart len size overlap start) q hq
      have hnext := nextStart_of_overlap_ge len size overlap start hov
      dsimp only
      rw [hfst, hnext]
    · rw [chunkSpans, if_neg hlt]
      exact List.chain'_nil

/-- C1: for every text `T`, size `S > 0` and overlap `O ≥ 0`, the chunks of
`chunk_text T S O` fully cover `T` — every character of `T` appears (at its
position) in at least one returned chunk — and concatenating the chunks in
order with the overlapping prefixes removed reconstructs `T` exactly. -/
theorem chunk_text_covers_and_reconstructs (text : List Char) (size overlap : Nat)
    (hsize : 0 < size) :
    (∀ i, i < text.length →
      ∃ p ∈ chunkSpans text.length size overlap 0 (text.length + 1),
        p.1 ≤ i ∧ i < p.2 ∧
        (text.drop p.1).take (p.2 - p.1) ∈ chunk_text text size overlap ∧
        ((text.drop p.1).take (p.2 - p.1)).get? (i - p.1) = text.get? i) ∧
    joinChunksDrop 0
        ((chunkSpans text.length size overlap 0 (text.length + 1)).zip
          (chunk_text text size overlap)) =
      text := by
  constructor
  · intro i hi
    obtain ⟨p, hp, hp1, hp2⟩ := chunkSpans_cover text.length size overlap hsize
      (text.length + 1) 0 i (by omega) (Nat.zero_le i) hi
    refine ⟨p, hp, hp1, hp2, ?_, ?_⟩
    · rw [chunk_text, chunkAux_eq_map_chunkSpans]
      exact List.mem_map_of_mem _ hp
    · rw [List.get?_take (by omega), List.get?_drop]
      congr 1
      omega
  · rw [chunk_text]
    rw [joinChunksDrop_spans text size overlap hsize (text.length + 1) 0 0
      (by omega) (le_refl 0) (by omega)]
    exact List.drop_zero text

/-- Witness for C1 at the concrete input `T = "ABCDEFGHIJ"`, `S = 4`,
`O = 1`. -/
theorem chunk_text_covers_and_reconstructs_witness :
    0 < 4 ∧
    ((∀ i, i < "ABCDEFGHIJ".toList.length →
      ∃ p ∈ chunkSpans "ABCDEFGHIJ".toList.length 4 1 0
          ("ABCDEFGHIJ".toList.length + 1),
        p.1 ≤ i ∧ i < p.2 ∧
        ("ABCDEFGHIJ".toList.drop p.1).take (p.2 - p.1) ∈
          chunk_text "ABCDEFGHIJ".toList 4 1 ∧
        (("ABCDEFGHIJ".toList.drop p.1).take (p.2 - p.1)).get? (i - p.1) =
          "ABCDEFGHIJ".toList.get? i) ∧
    joinChunksDrop 0
        ((chunkSpans "ABCDEFGHIJ".toList.length 4 1 0
            ("ABCDEFGHIJ".toList.length + 1)).zip
          (chunk_text "ABCDEFGHIJ".toList 4 1)) =
      "ABCDEFGHIJ".toList) :=
  ⟨by decide, chunk_text_covers_and_reconstructs "ABCDEFGHIJ".toList 4 1 (by decide)⟩

/-- C2 counterexample: `chunk_text("ABCDEFGHIJ", 4, 1)` does not return the
three chunks `["ABCD", "DEFG", "GHIJ"]` claimed by the spec, and the cursor
does not take the values `0, 4, 7, 10`. -/
theorem chunk_text_scenario1_counterexample :
    chunk_text "ABCDEFGHIJ".toList 4 1 ≠
      ["ABCD".toList, "DEFG".toList, "GHIJ".toList] ∧
    chunkCursors "ABCDEFGHIJ".toList.length 4 1 0
        ("ABCDEFGHIJ".toList.length + 1) ≠
      [0, 4, 7, 10] := by
  constructor <;> decide

/-- C2 amended: `chunk_text("ABCDEFGHIJ", 4, 1)` returns the four chunks
`["ABCD", "DEFG", "GHIJ", "J"]`, the cursor taking the values
`0, 3, 6, 9, 10` (each step moves to `end - overlap`). -/
theorem chunk_text_scenario1_amended :
    chunk_text "ABCDEFGHIJ".toList 4 1 =
      ["ABCD".toList, "DEFG".toList, "GHIJ".toList, "J".toList] ∧
    chunkCursors "ABCDEFGHIJ".toList.length 4 1 0
        ("ABCDEFGHIJ".toList.length + 1) =
      [0, 3, 6, 9, 10] := by
  constructor <;> decide

/-- C3: for every text `T`, size `S > 0` and overlap `O ≥ S`, `chunk_text`
returns exactly `⌈len T / S⌉` chunks, the spans are non-overlapping (each
chunk starts exactly where the previous one ends), and in particular
`chunk_text("ABCDEFGHIJ", 5, 5) = ["ABCDE", "FGHIJ"]`. -/
theorem chunk_text_overlap_ge_size_count (text : List Char) (size overlap : Nat)
    (hsize : 0 < size) (hov : size ≤ overlap) :
    (chunk_text text size overlap).length = (text.length + size - 1) / size ∧
    List.Chain' (fun p q => p.2 = q.1)
      (chunkSpans text.length size overlap 0 (text.length + 1)) ∧
    chunk_text "ABCDEFGHIJ".toList 5 5 = ["ABCDE".toList, "FGHIJ".toList] := by
  refine ⟨?_, ?_, by decide⟩
  · rw [chunk_text, chunkAux_eq_map_chunkSpans, List.length_map]
    have h := chunkSpans_length_of_overlap_ge text.length size overlap hsize hov
      (text.length + 1) 0 (by omega)
    rw [h]
    congr 1
  · exact chunkSpans_chain_of_overlap_ge text.length size overlap hov
      (text.length + 1) 0

/-- Witness for C3 at the concrete input `T = "ABCDEFGHIJ"`, `S = 5`,
`O = 5`. -/
theorem chunk_text_overlap_ge_size_count_witness :
    0 < 5 ∧ 5 ≤ 5 ∧
    ((chunk_text "ABCDEFGHIJ".toList 5 5).length =
        ("ABCDEFGHIJ".toList.length + 5 - 1) / 5 ∧
    List.Chain' (fun p q => p.2 = q.1)
      (chunkSpans "ABCDEFGHIJ".toList.length 5 5 0
        ("ABCDEFGHIJ".toList.length + 1)) ∧
    chunk_text "ABCDEFGHIJ".toList 5 5 = ["ABCDE".toList, "FGHIJ".toList]) :=
  ⟨by decide, by decide,
    chunk_text_overlap_ge_size_count "ABCDEFGHIJ".toList 5 5 (by decide) (by decide)⟩

/-- C10: for every text, size `S > 0` and overlap, every chunk returned by
`chunk_text` is non-empty, has length at most `S`, and is a contiguous
substring of the text (a slice at some offset lying inside the text). -/
theorem chunk_text_chunk_bounds (text : List Char) (size overlap : Nat)
    (hsize : 0 < size) :
    ∀ c ∈ chunk_text text size overlap,
      1 ≤ c.length ∧ c.length ≤ size ∧
      ∃ s, (text.drop s).take c.length = c ∧ s + c.length ≤ text.length := by
  intro c hc
  rw [chunk_text, chunkAux_eq_map_chunkSpans] at hc
  obtain ⟨p, hp, hcp⟩ := List.mem_map.mp hc
  obtain ⟨-, h1, h2, h3⟩ := chunkSpans_mem text.length size overlap hsize
    (text.length + 1) 0 p hp
  have hclen : c.length = p.2 - p.1 := by
    rw [← hcp, List.length_take, List.length_drop]
    omega
  refine ⟨by omega, by omega, p.1, ?_, by omega⟩
  rw [hclen, hcp]

/-- Witness for C10 at the concrete input `T = "ABCDEFGHIJ"`, `S = 4`,
`O = 1`, instantiated at the chunk `"J"`. -/
theorem chunk_text_chunk_bounds_witness :
    0 < 4 ∧ "J".toList ∈ chunk_text "ABCDEFGHIJ".toList 4 1 ∧
    (1 ≤ "J".toList.length ∧ "J".toList.length ≤ 4 ∧
      ∃ s, ("ABCDEFGHIJ".toList.drop s).take "J".toList.length = "J".toList ∧
        s + "J".toList.length ≤ "ABCDEFGHIJ".toList.length) :=
  ⟨by decide, by decide,
    chunk_text_chunk_bounds "ABCDEFGHIJ".toList 4 1 (by decide) "J".toList
      (by decide)⟩

/-! ## Summarizer, map phase (`summarize_text` in `app.py`)

The generative-model client is a function
`String → Except String (Option String)`: `Except.error e` models a thrown
exception with message `e`, `Except.ok r` a returned response whose `text`
field is `r` (with `none` when the attribute is absent, so that
`getattr(response, "text", "[No summary]")` is `Option.getD r "[No summary]"`).
-/

/-- The per-chunk prompt built by `summarize_text`, the content of the
triple-quoted f-string in `app.py`. -/
def summarizePrompt (style language chunk : String) : String :=
  "\n            Summarize the following text in " ++ language ++ " with " ++
    style ++ " style:\n            " ++ chunk ++ "\n            "

/-- The body of the `for i, chunk in enumerate(chunks)` loop: the model
response's `text` field (default `"[No summary]"`), or the per-index error
sentinel when the call raises. -/
def chunkSummary (model : String → Except String (Option String))
    (style language : String) (i : Nat) (chunk : String) : String :=
  match model (summarizePrompt style language chunk) with
  | Except.ok r => r.getD "[No summary]"
  | Except.error _ => "[Error in chunk " ++ toString (i + 1) ++ "]"

/-- The summarization loop, carrying the enumeration index. -/
def summarizeAux (model : String → Except String (Option String))
    (style language : String) : Nat → List String → List String
  | _, [] => []
  | i, chunk :: rest =>
    chunkSummary model style language i chunk ::
      summarizeAux model style language (i + 1) rest

/-- `summarize_text(chunks, model, style, language)` from `app.py`. -/
def summarize_text (chunks : List String)
    (model : String → Except String (Option String))
    (style language : String) : List String :=
  summarizeAux model style language 0 chunks

theorem chunkSummary_error (model : String → Except String (Option String))
    (style language : String) (i : Nat) (c e : String)
    (h : model (summarizePrompt style language c) = Except.error e) :
    chunkSummary model style language i c =
      "[Error in chunk " ++ toString (i + 1) ++ "]" := by
  unfold chunkSummary
  rw [h]

theorem chunkSummary_ok (model : String → Except String (Option String))
    (style language : String) (i : Nat) (c : String) (r : Option String)
    (h : model (summarizePrompt style language c) = Except.ok r) :
    chunkSummary model style language i c = r.getD "[No summary]" := by
  unfold chunkSummary
  rw [h]

theorem summarizeAux_get? (model : String → Except String (Option String))
    (style language : String) :
    ∀ chunks j i, (summarizeAux model style language j chunks).get? i =
      (chunks.get? i).map (chunkSummary model style language (j + i)) := by
  intro chunks
  induction chunks with
  | nil => intro j i; rfl
  | cons chunk rest ih =>
    intro j i
    cases i with
    | zero => rfl
    | succ i =>
      rw [summarizeAux, List.get?_cons_succ, List.get?_cons_succ, ih (j + 1) i]
      have h : j + 1 + i = j + (i + 1) := by omega
      rw [h]

theorem summarizeAux_length (model : String → Except String (Option String))
    (style language : String) :
    ∀ chunks j, (summarizeAux model style language j chunks).length =
      chunks.length := by
  intro chunks
  induction chunks with
  | nil => intro j; rfl
  | cons chunk rest ih =>
    intro j
    rw [summarizeAux, List.length_cons, List.length_cons, ih (j + 1)]

/-- C4: for every chunk list, model client, style and language,
`summarize_text` returns a list of exactly the same length, and the element
at every index `i` is exactly the per-chunk result for the `i`-th input
chunk (the model's summary text, or a substitute value when the call fails
or the response lacks the `text` field) — so each chunk contributes exactly
one output element in input order, however many calls fail. -/
theorem summarize_text_length_and_order (chunks : List String)
    (model : String → Except String (Option String)) (style language : String) :
    (summarize_text chunks model style language).length = chunks.length ∧
    ∀ i, (summarize_text chunks model style language).get? i =
      (chunks.get? i).map (chunkSummary model style language i) := by
  refine ⟨summarizeAux_length model style language chunks 0, ?_⟩
  intro i
  rw [summarize_text, summarizeAux_get?, Nat.zero_add]

/-- C5 counterexample: when the model's response lacks the `text` field, the
substituted sentinel is the fixed string `"[No summary]"`; it is the same for
every chunk, so it does not name the failing chunk's index (the index-naming
sentinel `"[Error in chunk 1]"` is used only for thrown exceptions). -/
theorem summarize_text_missing_field_counterexample :
    summarize_text ["A", "B"] (fun _ => Except.ok none) "Concise" "English" =
      ["[No summary]", "[No summary]"] ∧
    "[No summary]" ≠ "[Error in chunk 1]" ∧
    "[No summary]" ≠ "[Error in chunk 2]" := by
  refine ⟨rfl, ?_, ?_⟩ <;> decide

/-- C5 amended: when the model call for chunk `i` throws, `summarize_text`
substitutes the sentinel `"[Error in chunk i+1]"`, which names the chunk's
index; when the response merely lacks the `text` field it substitutes the
fixed sentinel `"[No summary]"` (which does not name the index). In both
cases the batch is not aborted: every sibling chunk still contributes its
own per-chunk result. -/
theorem summarize_text_failure_isolated (chunks : List String)
    (model : String → Except String (Option String)) (style language : String)
    (i : Nat) (c : String) (hc : chunks.get? i = some c) :
    (∀ e, model (summarizePrompt style language c) = Except.error e →
      (summarize_text chunks model style language).get? i =
        some ("[Error in chunk " ++ toString (i + 1) ++ "]")) ∧
    (model (summarizePrompt style language c) = Except.ok none →
      (summarize_text chunks model style language).get? i =
        some "[No summary]") ∧
    (∀ j cj t, j ≠ i → chunks.get? j = some cj →
      model (summarizePrompt style language cj) = Except.ok (some t) →
      (summarize_text chunks model style language).get? j = some t) := by
  have hget := summarizeAux_get? model style language chunks 0
  refine ⟨?_, ?_, ?_⟩
  · intro e he
    rw [summarize_text, hget i, hc, Option.map_some', Nat.zero_add,
      chunkSummary_error model style language i c e he]
  · intro he
    rw [summarize_text, hget i, hc, Option.map_some', Nat.zero_add,
      chunkSummary_ok model style language i c none he]
    rfl
  · intro j cj t hne hcj ht
    rw [summarize_text, hget j, hcj, Option.map_some', Nat.zero_add,
      chunkSummary_ok model style language j cj (some t) ht]
    rfl

/-- Witness for C5 (amended) with two chunks where the call for chunk 1
throws and the call for chunk 2 succeeds. -/
theorem summarize_text_failure_isolated_witness :
    (["A", "B"].get? 0 = some "A") ∧
    (fun p => if p = summarizePrompt "Concise" "English" "A" then
        (Except.error "boom" : Except String (Option String))
      else Except.ok (some "summary B")) (summarizePrompt "Concise" "English" "A") =
      Except.error "boom" ∧
    (summarize_text ["A", "B"]
        (fun p => if p = summarizePrompt "Concise" "English" "A" then
          Except.error "boom"
        else Except.ok (some "summary B")) "Concise" "English").get? 0 =
      some ("[Error in chunk " ++ toString (0 + 1) ++ "]") ∧
    (summarize_text ["A", "B"]
        (fun p => if p = summarizePrompt "Concise" "English" "A" then
          Except.error "boom"
        else Except.ok (some "summary B")) "Concise" "English").get? 1 =
      some "summary B" := by
  refine ⟨rfl, by simp, ?_, ?_⟩
  · exact (summarize_text_failure_isolated ["A", "B"]
      (fun p => if p = summarizePrompt "Concise" "English" "A" then
        Except.error "boom"
      else Except.ok (some "summary B")) "Concise" "English" 0 "A" rfl).1
      "boom" (by rw [if_pos rfl])
  · exact (summarize_text_failure_isolated ["A", "B"]
      (fun p => if p = summarizePrompt "Concise" "English" "A" then
        Except.error "boom"
      else Except.ok (some "summary B")) "Concise" "English" 0 "A" rfl).2.2
      1 "B" "summary B" (by decide) rfl (by rw [if_neg (by decide)])

/-! ## Refiner, reduce phase (`refine_summary` in `app.py`) -/

/-- The refine prompt: the instruction followed by all chunk summaries
joined with `"\n\n"` (Python `"\n\n".join(summaries)`). -/
def refinePrompt (language : String) (summaries : List String) : String :=
  "Combine and refine these summaries into one clear summary in " ++ language ++
    ":\n\n" ++ String.intercalate "\n\n" summaries

/-- `refine_summary(summaries, model, language)` from `app.py`. -/
def refine_summary (summaries : List String)
    (model : String → Except String (Option String)) (language : String) :
    String :=
  match model (refinePrompt language summaries) with
  | Except.ok r => r.getD "[No final summary]"
  | Except.error _ => "[Refinement failed]"

/-- C6: `refine_summary` is a total function (never raises). It issues one
model call on the instruction followed by all summaries joined in order with
the `"\n\n"` separator; any two summary lists with the same join — in
particular lists of sentinel failure values — are treated identically, with
no special case. On a successful call it returns the response text (or
`"[No final summary]"` when the `text` field is absent), and on a thrown
model-call failure it returns the `"[Refinement failed]"` sentinel instead
of raising. -/
theorem refine_summary_total_and_sentinel (summaries : List String)
    (model : String → Except String (Option String)) (language : String) :
    (∀ e, model (refinePrompt language summaries) = Except.error e →
      refine_summary summaries model language = "[Refinement failed]") ∧
    (∀ t, model (refinePrompt language summaries) = Except.ok (some t) →
      refine_summary summaries model language = t) ∧
    (model (refinePrompt language summaries) = Except.ok none →
      refine_summary summaries model language = "[No final summary]") ∧
    (∀ other : List String,
      String.intercalate "\n\n" other = String.intercalate "\n\n" summaries →
      refine_summary other model language =
        refine_summary summaries model language) := by
  refine ⟨?_, ?_, ?_, ?_⟩
  · intro e he
    unfold refine_summary
    rw [he]
  · intro t ht
    unfold refine_summary
    rw [ht]
    rfl
  · intro h
    unfold refine_summary
    rw [h]
    rfl
  · intro other hjoin
    unfold refine_summary refinePrompt
    rw [hjoin]

/-- Witness for C6: a single all-sentinel summary list with a failing model
call still yields the `"[Refinement failed]"` sentinel (no crash). -/
theorem refine_summary_total_and_sentinel_witness :
    (fun _ : String => (Except.error "quota" : Except String (Option String)))
        (refinePrompt "English" ["[Error in chunk 1]"]) =
      Except.error "quota" ∧
    refine_summary ["[Error in chunk 1]"]
        (fun _ => Except.error "quota") "English" =
      "[Refinement failed]" :=
  ⟨rfl, (refine_summary_total_and_sentinel ["[Error in chunk 1]"]
    (fun _ => Except.error "quota") "English").1 "quota" rfl⟩

/-! ## PDF extraction (`read_pdf_content` in `app.py`) and the main run

A page is `Except String (Option String)`: `page.extract_text()` either
raises, or returns `None` or a (possibly empty) string; Python's
`if page_text:` skips both `None` and `""`. The whole document is
`Except String (List ...)`: `pdfplumber.open` itself may raise. The
returned pair carries the accumulated text and whether an exception was
caught (`st.error` shown); the Python `try` stops accumulating at the first
page that raises but still returns the text collected so far.
-/

/-- What one page contributes to the accumulated text: `page_text + "\n"`
when `if page_text:` is truthy, nothing when the page returns `None` or an
empty string. -/
def pagePiece (t : Option String) : String :=
  match t with
  | some s => if s = "" then "" else s ++ "\n"
  | none => ""

/-- The page loop of `read_pdf_content`. -/
def readPagesAux : List (Except String (Option String)) → String × Bool
  | [] => ("", false)
  | Except.error _ :: _ => ("", true)
  | Except.ok t :: rest =>
    (pagePiece t ++ (readPagesAux rest).1, (readPagesAux rest).2)

/-- `read_pdf_content(uploaded_file)` from `app.py`: the extracted text and
whether an extraction error was reported. -/
def read_pdf_content
    (doc : Except String (List (Except String (Option String)))) :
    String × Bool :=
  match doc with
  | Except.error _ => ("", true)
  | Except.ok pages => readPagesAux pages

/-- Truthiness of Python's `pdf_text.strip()`: a string is blank when every
character is whitespace, so `strip()` yields the empty (falsy) string. -/
def isBlank (s : String) : Bool :=
  s.data.all (fun c => c.isWhitespace)

/-- The generate-summary flow of the main column in `app.py`: extract, then
— only when `pdf_text.strip()` is truthy — chunk, summarize per chunk, and
refine; `none` when the run stops before chunking. -/
def run_summary (doc : Except String (List (Except String (Option String))))
    (size overlap : Nat) (model : String → Except String (Option String))
    (style language : String) : Option (List String × String) :=
  let pdf_text := (read_pdf_content doc).1
  if isBlank pdf_text then none
  else
    let chunks := (chunk_text pdf_text.toList size overlap).map
      (fun c => String.mk c)
    let summaries := summarize_text chunks model style language
    some (summaries, refine_summary summaries model language)

example : readPagesAux [Except.ok (some "hello"), Except.error "boom"] =
    ("hello\n", true) := by decide

/-- C7 counterexample: a PDF whose first page extracts `"hello"` and whose
second page raises. Extraction fails (the error is reported), yet the run
still chunks and summarizes the partially extracted text `"hello\n"`. -/
theorem run_summary_partial_extraction_counterexample :
    (read_pdf_content
        (Except.ok [Except.ok (some "hello"), Except.error "boom"])).2 = true ∧
    run_summary (Except.ok [Except.ok (some "hello"), Except.error "boom"])
        4 1 (fun _ => Except.ok (some "S")) "Concise" "English" ≠ none := by
  constructor
  · rfl
  · intro h
    rw [run_summary] at h
    revert h
    decide

/-- C7 amended: the run reaches chunking and summarization exactly when the
text returned by extraction — which may be only the part extracted before a
failure — is non-blank; in particular, when extraction fails before any text
is extracted (e.g. the PDF cannot be opened), the failure is reported, the
text is empty and no chunking or summarization work proceeds. -/
theorem run_summary_gate (doc : Except String (List (Except String (Option String))))
    (size overlap : Nat) (model : String → Except String (Option String))
    (style language : String) :
    (run_summary doc size overlap model style language = none ↔
      isBlank (read_pdf_content doc).1 = true) ∧
    (∀ e, doc = Except.error e →
      read_pdf_content doc = ("", true) ∧
      run_summary doc size overlap model style language = none) := by
  constructor
  · rw [run_summary]
    by_cases h : isBlank (read_pdf_content doc).1 = true
    · rw [if_pos h]
      exact ⟨fun _ => h, fun _ => rfl⟩
    · rw [if_neg h]
      exact ⟨fun hsome => absurd hsome (by simp), fun hc => absurd hc h⟩
  · intro e he
    subst he
    refine ⟨rfl, ?_⟩
    rw [run_summary]
    rfl

/-- Witness for C7 (amended): an unreadable PDF yields empty text, a
reported error, and an aborted run. -/
theorem run_summary_gate_witness :
    (Except.error "bad pdf" :
        Except String (List (Except String (Option String)))) =
      Except.error "bad pdf" ∧
    read_pdf_content (Except.error "bad pdf") = ("", true) ∧
    run_summary (Except.error "bad pdf") 4 1
        (fun _ => Except.ok (some "S")) "Concise" "English" = none :=
  ⟨rfl,
    (run_summary_gate (Except.error "bad pdf") 4 1
      (fun _ => Except.ok (some "S")) "Concise" "English").2 "bad pdf" rfl⟩

/-- The texts of the pages that yield text: pages that raise, return `None`
or return `""` contribute nothing. -/
def pageTexts (pages : List (Except String (Option String))) : List String :=
  pages.filterMap (fun p => match p with
    | Except.ok (some s) => if s = "" then none else some s
    | _ => none)

/-- Joining a list of strings with a separator between consecutive elements,
as the spec words it ("concatenates all page texts with newline
separators"). -/
def joinSep (sep : String) : List String → String
  | [] => ""
  | [s] => s
  | s :: rest => s ++ sep ++ joinSep sep rest

/-- Modelled from the spec: the extracted document text as the claim words
it — the per-page extracted texts joined with newline separators. -/
def claimedExtract (pages : List (Except String (Option String))) : String :=
  joinSep "\n" (pageTexts pages)

/-- C8 counterexample: for a one-page PDF whose page extracts `"a"`, the
code produces `"a\n"` (every contributing page text is followed by a
newline), not the separator-join `"a"` the claim describes. -/
theorem read_pdf_content_counterexample :
    (read_pdf_content (Except.ok [Except.ok (some "a")])).1 = "a\n" ∧
    claimedExtract [Except.ok (some "a")] = "a" ∧
    ("a\n" : String) ≠ "a" :=
  ⟨rfl, rfl, by decide⟩

/-- A page yielding no text (`None` or `""`) contributes nothing: removing
it from the page list leaves the extraction result unchanged. -/
theorem readPagesAux_skip_empty (p : Except String (Option String))
    (hp : p = Except.ok none ∨ p = Except.ok (some "")) :
    ∀ pre post, readPagesAux (pre ++ p :: post) = readPagesAux (pre ++ post) := by
  intro pre
  induction pre with
  | nil =>
    intro post
    rcases hp with h | h <;> subst h <;>
      simp [readPagesAux, pagePiece]
  | cons q pre ih =>
    intro post
    cases q with
    | error e => rfl
    | ok t =>
      show (pagePiece t ++ (readPagesAux (pre ++ p :: post)).1,
          (readPagesAux (pre ++ p :: post)).2) =
        (pagePiece t ++ (readPagesAux (pre ++ post)).1,
          (readPagesAux (pre ++ post)).2)
      rw [ih post]

theorem readPagesAux_join (pages : List (Except String (Option String)))
    (hok : ∀ p ∈ pages, ∃ t, p = Except.ok t) :
    (readPagesAux pages).1 =
      (if pageTexts pages = [] then ""
        else joinSep "\n" (pageTexts pages) ++ "\n") ∧
    (readPagesAux pages).2 = false := by
  induction pages with
  | nil => exact ⟨rfl, rfl⟩
  | cons p rest ih =>
    obtain ⟨t, rfl⟩ := hok p (List.mem_cons_self _ _)
    have ihr := ih (fun q hq => hok q (List.mem_cons_of_mem _ hq))
    refine ⟨?_, ihr.2⟩
    show pagePiece t ++ (readPagesAux rest).1 = _
    cases t with
    | none =>
      have hpt : pageTexts (Except.ok none :: rest) = pageTexts rest := rfl
      rw [hpt]
      show "" ++ (readPagesAux rest).1 = _
      rw [String.empty_append]
      exact ihr.1
    | some s =>
      by_cases hs : s = ""
      · subst hs
        have hpt : pageTexts (Except.ok (some "") :: rest) = pageTexts rest := by
          simp [pageTexts]
        have hpc : pagePiece (some "") = "" := by simp [pagePiece]
        rw [hpt, hpc, String.empty_append]
        exact ihr.1
      · have hpt : pageTexts (Except.ok (some s) :: rest) = s :: pageTexts rest := by
          simp [pageTexts, hs]
        have hpc : pagePiece (some s) = s ++ "\n" := by simp [pagePiece, hs]
        rw [hpt, hpc, ihr.1, if_neg (List.cons_ne_nil s (pageTexts rest))]
        by_cases hr : pageTexts rest = []
        · rw [if_pos hr, hr, String.append_empty]
          rfl
        · rw [if_neg hr]
          obtain ⟨r, rs, hrr⟩ := List.exists_cons_of_ne_nil hr
          rw [hrr]
          show _ = (s ++ "\n" ++ joinSep "\n" (r :: rs)) ++ "\n"
          simp only [String.append_assoc]

/-- C8 amended: for every successfully extracted PDF (no page raises), the
extracted text is the page texts — in page order, pages yielding no text
contributing nothing — each followed by a newline: equivalently, the texts
joined with newline separators with one trailing newline appended when any
page yields text (and `""` when none does); no error is reported, and
inserting a page yielding no text anywhere leaves the result unchanged. -/
theorem read_pdf_content_joins_pages
    (pages : List (Except String (Option String)))
    (hok : ∀ p ∈ pages, ∃ t, p = Except.ok t) :
    (read_pdf_content (Except.ok pages)).1 =
      (if pageTexts pages = [] then ""
        else joinSep "\n" (pageTexts pages) ++ "\n") ∧
    (read_pdf_content (Except.ok pages)).2 = false ∧
    (∀ p, (p = Except.ok none ∨ p = Except.ok (some "")) →
      ∀ pre post, readPagesAux (pre ++ p :: post) = readPagesAux (pre ++ post)) :=
  ⟨(readPagesAux_join pages hok).1, (readPagesAux_join pages hok).2,
    fun p hp => readPagesAux_skip_empty p hp⟩

/-- Witness for C8 (amended) on a three-page PDF whose middle page yields no
text: the result is `"a\nb\n"`, the joined texts plus a trailing newline. -/
theorem read_pdf_content_joins_pages_witness :
    (read_pdf_content (Except.ok
        [Except.ok (some "a"), Except.ok none, Except.ok (some "b")])).1 =
      (if pageTexts [Except.ok (some "a"), Except.ok none, Except.ok (some "b")] = []
        then ""
        else joinSep "\n"
          (pageTexts [Except.ok (some "a"), Except.ok none, Except.ok (some "b")]) ++
          "\n") :=
  (read_pdf_content_joins_pages
    [Except.ok (some "a"), Except.ok none, Except.ok (some "b")]
    (by intro p hp
        rcases List.mem_cons.mp hp with h | hp
        · exact ⟨some "a", h⟩
        rcases List.mem_cons.mp hp with h | hp
        · exact ⟨none, h⟩
        rcases List.mem_cons.mp hp with h | hp
        · exact ⟨some "b", h⟩
        · exact absurd hp (List.not_mem_nil p))).1

/-! ## Exporter (`download_docx` in `app.py`)

Modelled from the spec: the `python-docx` `Document` container and its
binary serialization are an external collaborator, not code of this
repository. A document is its list of blocks (headings with their level,
and paragraphs); `doc.save(buffer)` is modelled as an unambiguous byte-list
serialization of those blocks, with `docxContent` the corresponding decoder
used to state what the produced stream contains. `download_docx` itself
follows `app.py`: a new document, `add_heading("AI PDF Summary", level=1)`,
`add_paragraph(summary_text)`, serialized to an in-memory buffer.
-/

/-- A block of the rich-document container: a heading with its level, or a
paragraph. -/
inductive DocxBlock where
  | heading : Nat → String → DocxBlock
  | paragraph : String → DocxBlock
deriving DecidableEq

/-- Length-prefixed encoding of a string as code points. -/
def encodeString (s : String) : List Nat :=
  s.length :: s.data.map Char.toNat

/-- Modelled from the spec: serialization of one block of the container. -/
def encodeBlock : DocxBlock → List Nat
  | DocxBlock.heading level s => 0 :: level :: encodeString s
  | DocxBlock.paragraph s => 1 :: encodeString s

/-- Modelled from the spec: `doc.save(buffer)`, the byte stream of a whole
document. -/
def docxSave (blocks : List DocxBlock) : List Nat :=
  (blocks.map encodeBlock).flatten

/-- `download_docx(summary_text, file_name)` from `app.py`: build a document
holding the `"AI PDF Summary"` heading and one paragraph with the summary
text, and serialize it to an in-memory byte stream. (`file_name` is unused
by the source function as well.) -/
def download_docx (summary_text : String) (file_name : String) : List Nat :=
  docxSave [DocxBlock.heading 1 "AI PDF Summary", DocxBlock.paragraph summary_text]

/-- Decoder for `encodeString`: the decoded string and the remaining bytes. -/
def decodeString (bs : List Nat) : Option (String × List Nat) :=
  match bs with
  | [] => none
  | n :: rest =>
    if n ≤ rest.length then
      some (String.mk ((rest.take n).map Char.ofNat), rest.drop n)
    else none

/-- Decoder for a whole byte stream, with fuel. -/
def decodeBlocks : Nat → List Nat → Option (List DocxBlock)
  | _, [] => some []
  | 0, _ :: _ => none
  | fuel + 1, tag :: rest =>
    if tag = 0 then
      match rest with
      | [] => none
      | level :: rest1 =>
        match decodeString rest1 with
        | some (s, rest2) =>
          (decodeBlocks fuel rest2).map (fun bs => DocxBlock.heading level s :: bs)
        | none => none
    else if tag = 1 then
      match decodeString rest with
      | some (s, rest2) =>
        (decodeBlocks fuel rest2).map (fun bs => DocxBlock.paragraph s :: bs)
      | none => none
    else none

/-- The document content held by a serialized byte stream. -/
def docxContent (bs : List Nat) : Option (List DocxBlock) :=
  decodeBlocks bs.length bs

theorem decodeString_encode (t : String) (tail : List Nat) :
    decodeString (encodeString t ++ tail) = some (t, tail) := by
  show decodeString (t.length :: (t.data.map Char.toNat ++ tail)) = some (t, tail)
  rw [decodeString]
  have hl : (t.data.map Char.toNat).length = t.length := by
    rw [List.length_map]
    rfl
  rw [if_pos (by rw [List.length_append, hl]; omega)]
  rw [← hl, List.take_left, List.drop_left]
  have hmap : ∀ l : List Char, (l.map Char.toNat).map Char.ofNat = l := by
    intro l
    induction l with
    | nil => rfl
    | cons c cs ih =>
      rw [List.map_cons, List.map_cons, ih, Char.ofNat_toNat]
  rw [hmap]

theorem decodeBlocks_heading (fuel level : Nat) (t : String) (tail : List Nat) :
    decodeBlocks (fuel + 1) (0 :: level :: (encodeString t ++ tail)) =
      (decodeBlocks fuel tail).map (fun bs => DocxBlock.heading level t :: bs) := by
  show (match decodeString (encodeString t ++ tail) with
    | some (s, rest2) =>
      (decodeBlocks fuel rest2).map (fun bs => DocxBlock.heading level s :: bs)
    | none => none) = _
  rw [decodeString_encode]

theorem decodeBlocks_paragraph (fuel : Nat) (t : String) (tail : List Nat) :
    decodeBlocks (fuel + 1) (1 :: (encodeString t ++ tail)) =
      (decodeBlocks fuel tail).map (fun bs => DocxBlock.paragraph t :: bs) := by
  show (match decodeString (encodeString t ++ tail) with
    | some (s, rest2) =>
      (decodeBlocks fuel rest2).map (fun bs => DocxBlock.paragraph s :: bs)
    | none => none) = _
  rw [decodeString_encode]

theorem decodeBlocks_heading_paragraph (m level : Nat) (t s : String) :
    decodeBlocks (m + 2)
        (encodeBlock (DocxBlock.heading level t) ++
          (encodeBlock (DocxBlock.paragraph s) ++ [])) =
      some [DocxBlock.heading level t, DocxBlock.paragraph s] := by
  show decodeBlocks (m + 1 + 1)
      (0 :: level :: (encodeString t ++ (1 :: (encodeString s ++ [])))) = _
  rw [decodeBlocks_heading (m + 1) level t (1 :: (encodeString s ++ []))]
  rw [decodeBlocks_paragraph m s []]
  have hnil : decodeBlocks m [] = some [] := by
    cases m <;> rfl
  rw [hnil]
  rfl

/-- C9: for every summary string, the rich-document export is the
deterministic pure function `download_docx`, and the byte stream it returns
decodes to exactly a level-1 heading `"AI PDF Summary"` followed by one
paragraph holding the summary text — no other content. -/
theorem download_docx_content (s : String) :
    docxContent (download_docx s "summary.docx") =
      some [DocxBlock.heading 1 "AI PDF Summary", DocxBlock.paragraph s] := by
  have hshape : download_docx s "summary.docx" =
      encodeBlock (DocxBlock.heading 1 "AI PDF Summary") ++
        (encodeBlock (DocxBlock.paragraph s) ++ []) := rfl
  rw [docxContent, hshape]
  have h2 : 2 ≤ (encodeBlock (DocxBlock.heading 1 "AI PDF Summary") ++
      (encodeBlock (DocxBlock.paragraph s) ++ [])).length := by
    show 2 ≤ (0 :: 1 :: (encodeString "AI PDF Summary" ++
      (1 :: (encodeString s ++ [])))).length
    rw [List.length_cons, List.length_cons]
    omega
  have hlen : (encodeBlock (DocxBlock.heading 1 "AI PDF Summary") ++
      (encodeBlock (DocxBlock.paragraph s) ++ [])).length =
      ((encodeBlock (DocxBlock.heading 1 "AI PDF Summary") ++
        (encodeBlock (DocxBlock.paragraph s) ++ [])).length - 2) + 2 := by
    omega
  rw [hlen]
  exact decodeBlocks_heading_paragraph _ 1 "AI PDF Summary" s

end PdfSummarizer
